import Mathlib

/-!
Verification development for the `state_machine_visualizer` repository
(`src/state_machine_visualizer/simulator.py`).

Shallow embedding of the parts of the interpreter the claims are about:

* the process-wide `EventLoop` (class `EventLoop`, simulator.py 527-562);
* the guard mini-language evaluator (`StateMachine.intepreter_condition`,
  simulator.py 2766-2820);
* the runtime state handlers (`InitialState.execute_signal`,
  `ChoiceState.execute_signal`, `FinalState.execute_signal`,
  `State.execute_signal`, simulator.py 2954-3078);
* builder helpers (`init_initial_states`, `find_transitions_for_state`,
  simulator.py 3272-3299);
* the semantic parser's meta-note handling (`CGMLParser.parse_cgml`,
  `CGMLParser._parse_meta`, simulator.py 2391-2505);
* the gardener device (`Gardener`, `Mover.move_forward`, `Mover.turn_left`,
  `Mover.turn_right`, simulator.py 1738-2085);
* the driver loop (`run_state_machine`, `StateMachineResult`,
  simulator.py 3313-3367) and the `JuniorGardener` visualizer's wrapper
  (`visualizers/JuniorGardener.py` 309-360).

Python machine integers are modelled as `Int`/`Nat`, numeric guard values
(Python `int`/`float` results of `int(...)`/`float(...)`) as `ℚ`, Python
`None`-or-value as `Option`, and raised exceptions as `Except`/`Option`.
-/

/-! ### Event loop (`EventLoop`, simulator.py 527-562)

`EventLoop` is a class holding static fields `events`, `called_events`,
`current_event_idx`, `insert_event_idx`; we model that mutable state as a
record threaded explicitly. -/

structure ELState where
  events : List String
  called_events : List String
  current_event_idx : Nat
  insert_event_idx : Nat
  deriving Repr, DecidableEq

/-- Python `list.insert(i, x)`: inserts `x` before index `i`; an index past
the end appends (Python clamps the index). -/
def pyInsert : Nat → α → List α → List α
  | 0, x, l => x :: l
  | _ + 1, x, [] => [x]
  | n + 1, x, a :: l => a :: pyInsert n x l

/-- Model of `EventLoop.add_event` (simulator.py 533-546): first increments
`insert_event_idx`, then inserts the event at that index, and appends to
`called_events` only when `is_called` is true. -/
def addEvent (event : String) (isCalled : Bool) (st : ELState) : ELState :=
  { events := pyInsert (st.insert_event_idx + 1) event st.events
    called_events := if isCalled then st.called_events ++ [event] else st.called_events
    current_event_idx := st.current_event_idx
    insert_event_idx := st.insert_event_idx + 1 }

/-- Model of `EventLoop.get_event` (simulator.py 554-562): returns the event at the
read cursor and advances it, resetting `insert_event_idx` to the new read
cursor; returns `None` when drained. -/
def getEvent (st : ELState) : Option String × ELState :=
  if h : st.current_event_idx < st.events.length then
    (some (st.events.get ⟨st.current_event_idx, h⟩),
      { st with
          current_event_idx := st.current_event_idx + 1
          insert_event_idx := st.current_event_idx + 1 })
  else (none, st)

/-- Model of `EventLoop.clear` (simulator.py 548-552): resets the read cursor and
empties both lists; `insert_event_idx` is *not* reset. -/
def clearEL (st : ELState) : ELState :=
  { events := []
    called_events := []
    current_event_idx := 0
    insert_event_idx := st.insert_event_idx }

/-- A sequence of `add_event` calls with explicit `is_called` flags. -/
def applyPosts (posts : List (String × Bool)) (st : ELState) : ELState :=
  posts.foldl (fun s p => addEvent p.1 p.2 s) st

/-- Posting with `is_called = false` only, as the runtime state handlers do. -/
def postAll (events : List String) (st : ELState) : ELState :=
  events.foldl (fun s e => addEvent e false s) st

/-- Read `n` events (repeated `get_event` until `None`). -/
def readN : Nat → ELState → List String
  | 0, _ => []
  | n + 1, st =>
    match getEvent st with
    | (none, _) => []
    | (some e, st') => e :: readN n st'

theorem pyInsert_eq (i : Nat) (x : α) (l : List α) :
    pyInsert i x l = l.take i ++ x :: l.drop i := by
  induction i generalizing l with
  | zero => simp [pyInsert]
  | succ n ih =>
    cases l with
    | nil => simp [pyInsert]
    | cons a t => simp [pyInsert, ih]

theorem pyInsert_length (i : Nat) (x : α) (l : List α) :
    (pyInsert i x l).length = l.length + 1 := by
  rw [pyInsert_eq]
  simp
  omega

theorem postAll_cons (x : String) (xs : List String) (st : ELState) :
    postAll (x :: xs) st = postAll xs (addEvent x false st) := rfl

theorem postAll_called (xs : List String) (st : ELState) :
    (postAll xs st).called_events = st.called_events := by
  induction xs generalizing st with
  | nil => rfl
  | cons x xs ih =>
    rw [postAll_cons, ih]
    simp [addEvent]

theorem postAll_cur (xs : List String) (st : ELState) :
    (postAll xs st).current_event_idx = st.current_event_idx := by
  induction xs generalizing st with
  | nil => rfl
  | cons x xs ih =>
    rw [postAll_cons, ih]
    rfl

theorem postAll_ins (xs : List String) (st : ELState) :
    (postAll xs st).insert_event_idx = st.insert_event_idx + xs.length := by
  induction xs generalizing st with
  | nil => rfl
  | cons x xs ih =>
    rw [postAll_cons, ih]
    simp [addEvent]
    omega

/-- Posting a batch of events places them, in posting order, starting one
slot *past* the insertion cursor (because `add_event` increments the cursor
before inserting). -/
theorem postAll_events (xs : List String) (st : ELState)
    (h : st.insert_event_idx ≤ st.events.length) :
    (postAll xs st).events = st.events.take (st.insert_event_idx + 1) ++ xs
      ++ st.events.drop (st.insert_event_idx + 1) := by
  induction xs generalizing st with
  | nil => simp [postAll]
  | cons x xs ih =>
    rw [postAll_cons]
    have h1 : (addEvent x false st).insert_event_idx
        ≤ (addEvent x false st).events.length := by
      simp [addEvent, pyInsert_length]
      omega
    rw [ih _ h1]
    simp only [addEvent, pyInsert_eq]
    set i := st.insert_event_idx with hi
    set ev := st.events with hev
    rw [List.take_append_eq_append_take, List.drop_append_eq_append_drop]
    have hAle : (ev.take (i + 1)).length ≤ i + 1 + 1 := by
      rw [List.length_take]
      omega
    rw [List.take_of_length_le hAle, List.drop_of_length_le hAle]
    rcases Nat.lt_or_ge i ev.length with hlt | hge
    · have hA : (ev.take (i + 1)).length = i + 1 := by
        rw [List.length_take]
        omega
      rw [hA]
      have h2 : i + 1 + 1 - (i + 1) = 1 := by omega
      rw [h2]
      simp
    · have hA : (ev.take (i + 1)).length = ev.length := by
        rw [List.length_take]
        omega
      have hB : ev.drop (i + 1) = [] := List.drop_of_length_le (by omega)
      rw [hA, hB]
      have h2 : i + 1 + 1 - ev.length = 2 := by omega
      rw [h2]
      simp

theorem readN_drained (n : Nat) (st : ELState)
    (h : n = st.events.length - st.current_event_idx) :
    readN n st = st.events.drop st.current_event_idx := by
  induction n generalizing st with
  | zero =>
    have : st.events.length ≤ st.current_event_idx := by omega
    rw [List.drop_of_length_le this]
    rfl
  | succ n ih =>
    have hlt : st.current_event_idx < st.events.length := by omega
    simp only [readN, getEvent, dif_pos hlt]
    have := ih { st with
        current_event_idx := st.current_event_idx + 1
        insert_event_idx := st.current_event_idx + 1 } (by simp; omega)
    simp only at this
    rw [this, List.drop_eq_getElem_cons hlt]
    rfl

/-! ### Claim C1 — event-loop insertion ordering -/

/-- The event-loop state right after `get_event` has returned the event `E`
at index 0 of `["E", "P", "P2"]`-style queues: read cursor and insertion
cursor both sit on the next queued event. -/
def elAfterE : ELState :=
  { events := ["E", "P", "Q"]
    called_events := []
    current_event_idx := 1
    insert_event_idx := 1 }

/-- C1, counterexample: after `get_event` returns `E` with `P`, `Q` queued
behind it, a handler posting `a`, `b`, `c` does *not* get them read next:
the next reads are `P, a, b, c, Q`, not `a, b, c, P, Q` — the first event
already queued behind `E` overtakes the posted ones, because `add_event`
increments `insert_event_idx` before inserting. -/
theorem eventLoopInsertionOrdering_cex :
    (getEvent { events := ["E", "P", "Q"], called_events := [],
                current_event_idx := 0, insert_event_idx := 0 : ELState }).1 = some "E" ∧
    (getEvent { events := ["E", "P", "Q"], called_events := [],
                current_event_idx := 0, insert_event_idx := 0 : ELState }).2 = elAfterE ∧
    readN 5 (postAll ["a", "b", "c"] elAfterE) = ["P", "a", "b", "c", "Q"] ∧
    ["P", "a", "b", "c", "Q"] ≠ ["a", "b", "c", "P", "Q"] := by
  refine ⟨by decide, by decide, by decide, by decide⟩

/-- C1, amended: in a state where `get_event` has just returned the current
event (so both cursors agree), posting `xs` and then reading everything
yields: the *first* event that was already queued behind the current one
(if any), then the posted events in posting order, then the remaining
queued events. Events posted while handling `E` therefore run after the
first old event queued behind `E`, not immediately after `E`; they do
preserve their own posting order and precede all older events but the
first. -/
theorem eventLoopInsertionOrdering (st : ELState) (xs : List String)
    (h1 : st.insert_event_idx = st.current_event_idx)
    (h2 : st.current_event_idx ≤ st.events.length) :
    readN ((postAll xs st).events.length - (postAll xs st).current_event_idx)
        (postAll xs st)
      = (st.events.drop st.current_event_idx).take 1 ++ xs
        ++ st.events.drop (st.current_event_idx + 1) := by
  have hins : st.insert_event_idx ≤ st.events.length := by omega
  rw [readN_drained _ _ rfl, postAll_events _ _ hins, postAll_cur, h1]
  set c := st.current_event_idx with hc
  set ev := st.events with hev
  rw [List.drop_append_eq_append_drop, List.drop_append_eq_append_drop]
  have hA : (ev.take (c + 1)).length = min (c + 1) ev.length := by
    rw [List.length_take]
  have hge : c ≤ (ev.take (c + 1)).length := by
    rw [hA]
    omega
  have h0 : c - (ev.take (c + 1)).length = 0 := by omega
  rw [h0]
  simp only [List.drop_zero]
  have hdt : (ev.take (c + 1)).drop c = (ev.drop c).take (c + 1 - c) := by
    rw [List.drop_take]
  have h1' : c + 1 - c = 1 := by omega
  rw [hdt, h1']
  have h3 : c - ((c + 1) ⊓ ev.length + xs.length) = 0 := by omega
  simp [h3]

/-- Witness for `eventLoopInsertionOrdering` at the concrete post-`E`
state. -/
theorem eventLoopInsertionOrdering_witness :
    readN ((postAll ["a", "b", "c"] elAfterE).events.length
        - (postAll ["a", "b", "c"] elAfterE).current_event_idx)
        (postAll ["a", "b", "c"] elAfterE)
      = (elAfterE.events.drop elAfterE.current_event_idx).take 1 ++ ["a", "b", "c"]
        ++ elAfterE.events.drop (elAfterE.current_event_idx + 1) :=
  eventLoopInsertionOrdering elAfterE ["a", "b", "c"] rfl (by decide)

/-! ### Guard mini-language (`StateMachine.intepreter_condition`,
simulator.py 2766-2820)

Operand values are Python ints/floats (modelled as `ℚ`) or strings;
component objects expose named attributes. A `none` comparison result
models a Python `TypeError` raised by an ordered comparison between a
string and a number. -/

inductive PyValue where
  | num (q : ℚ)
  | str (s : String)
  deriving Repr, DecidableEq

/-- Component table: declared id ↦ readable attributes, as used by the
`component.attribute` branch of `resolve`. -/
abbrev CompMap := List (String × List (String × PyValue))

def compAttr? (comps : CompMap) (compName attr : String) : Option PyValue :=
  (comps.lookup compName).bind (fun attrs => attrs.lookup attr)

/-- Split a character list at the first occurrence of `needle`: the part
before it and the part after it. -/
def findSub (needle : List Char) : List Char → Option (List Char × List Char)
  | [] => if needle = [] then some ([], []) else none
  | c :: rest =>
    if needle.isPrefixOf (c :: rest) then some ([], (c :: rest).drop needle.length)
    else
      match findSub needle rest with
      | some (before, after) => some (c :: before, after)
      | none => none

/-- Python substring test `needle in s` (for a nonempty needle). -/
def pyInStr (needle s : String) : Bool := (findSub needle.data s.data).isSome

/-- Python `s.split(needle, 1)`: the part before the first occurrence and
the rest. -/
def splitOnce (needle s : String) : String × String :=
  match findSub needle.data s.data with
  | some (b, a) => (String.mk b, String.mk a)
  | none => (s, "")

/-- Python `s.split(needle)` for a nonempty separator (fuelled so that the
recursion is structural; the fuel is always sufficient). -/
def splitAllFuel (needle : List Char) : Nat → List Char → List (List Char)
  | 0, l => [l]
  | fuel + 1, l =>
    match findSub needle l with
    | none => [l]
    | some (b, a) => b :: splitAllFuel needle fuel a

def pySplitAll (needle s : String) : List String :=
  (splitAllFuel needle.data (s.data.length + 1) s.data).map String.mk

/-- The whitespace stripped by Python `str.strip()`. -/
def isPySpace (c : Char) : Bool :=
  c = ' ' ∨ c = '\t' ∨ c = '\n' ∨ c = '\r' ∨ c = '\x0b' ∨ c = '\x0c'

/-- Python `s.strip()`. -/
def pyStrip (s : String) : String :=
  String.mk (((s.data.dropWhile isPySpace).reverse.dropWhile isPySpace).reverse)

def digitsNat (cs : List Char) : Nat :=
  cs.foldl (fun acc c => acc * 10 + (c.toNat - 48)) 0

/-- Python `int(s)` on a stripped token (modelled fragment: an optional
sign followed by decimal digits). -/
def pyInt? (s : String) : Option Int :=
  match s.data with
  | '-' :: rest =>
    if rest ≠ [] ∧ rest.all Char.isDigit then some (-(digitsNat rest : Int)) else none
  | '+' :: rest =>
    if rest ≠ [] ∧ rest.all Char.isDigit then some (digitsNat rest : Int) else none
  | cs => if cs ≠ [] ∧ cs.all Char.isDigit then some (digitsNat cs : Int) else none

/-- Python `float(s)` on a stripped token (modelled fragment: an optional
sign, decimal digits, one dot, decimal digits; at least one digit). The
result is the exact decimal value as a rational. -/
def pyFloatCore? (s : String) : Option ℚ :=
  match pySplitAll "." s with
  | [ip, fp] =>
    if (ip.data ≠ [] ∨ fp.data ≠ []) ∧ ip.data.all Char.isDigit ∧ fp.data.all Char.isDigit then
      some ((digitsNat ip.data : ℚ) + (digitsNat fp.data : ℚ) / ((10 : ℚ) ^ fp.data.length))
    else none
  | _ => none

def pyFloat? (s : String) : Option ℚ :=
  match s.data with
  | '-' :: rest => (pyFloatCore? (String.mk rest)).map (fun q => -q)
  | '+' :: rest => pyFloatCore? (String.mk rest)
  | _ => pyFloatCore? s

/-- Strip a matching pair of quote characters (no inner quote). -/
def stripQuote (q : Char) (s : String) : Option String :=
  match s.data with
  | c :: rest =>
    if c = q ∧ rest ≠ [] ∧ rest.getLast? = some q
        ∧ rest.dropLast.all (fun d => d ≠ q) then
      some (String.mk rest.dropLast)
    else none
  | [] => none

/-- Model of `safe_eval` inside `resolve` (simulator.py 2796-2805): `ast.parse` the
token; a constant expression evaluates to its literal, anything else (or a
syntax error) returns the token unchanged. Modelled fragment: simple
single- or double-quoted string literals; other tokens come back as
themselves (numeric tokens were already consumed by the `int`/`float`
attempt before `safe_eval` is reached). -/
def safeEval (val : String) : PyValue :=
  match stripQuote '\'' val with
  | some inner => .str inner
  | none =>
    match stripQuote '"' val with
    | some inner => .str inner
    | none => .str val

/-- Model of `resolve` inside `intepreter_condition` (simulator.py 2795-2815): try
`float(val)` when the token contains a dot, else `int(val)`; on failure,
if the token contains a dot, try to read `component.attribute`; otherwise
fall back to `safe_eval`. -/
def resolveOperand (comps : CompMap) (val : String) : PyValue :=
  match (if pyInStr "." val then pyFloat? val
         else (pyInt? val).map (fun n => (n : ℚ))) with
  | some q => .num q
  | none =>
    if pyInStr "." val then
      match compAttr? comps (splitOnce "." val).1 (splitOnce "." val).2 with
      | some v => v
      | none => safeEval val
    else safeEval val

/-- Python `==` across the modelled value types: numbers compare
numerically, strings by content, a number and a string are unequal. -/
def pyValueEq : PyValue → PyValue → Bool
  | .num a, .num b => a = b
  | .str a, .str b => a = b
  | _, _ => false

/-- Python `<` on the modelled value types; `none` models the `TypeError`
raised on an ordered comparison between a string and a number. -/
def pyValueLt : PyValue → PyValue → Option Bool
  | .num a, .num b => some (decide (a < b))
  | .str a, .str b => some (decide (a < b))
  | _, _ => none

/-- The comparison dispatch of `intepreter_condition` (the `ops` table,
simulator.py 2778-2785). -/
def pyCompare (op : String) (a b : PyValue) : Option Bool :=
  if op = "==" then some (pyValueEq a b)
  else if op = "!=" then some (!(pyValueEq a b))
  else if op = ">=" then (pyValueLt a b).map (fun r => !r)
  else if op = "<=" then (pyValueLt b a).map (fun r => !r)
  else if op = ">" then pyValueLt b a
  else if op = "<" then pyValueLt a b
  else none

/-- Model of `sorted(ops.keys(), key=len, reverse=True)` over the insertion-ordered
`ops` dict `['>', '<', '==', '!=', '>=', '<=']`: Python's sort is stable,
so the two-character operators come first in dict order, then the
one-character ones. -/
def condOps : List String := ["==", "!=", ">=", "<=", ">", "<"]

/-- Model of `StateMachine.intepreter_condition` (simulator.py 2766-2820). An empty
or blank condition is true; otherwise the first operator (in `condOps`
order) occurring as a substring splits the condition once, both sides are
resolved, and the comparison runs; with no operator, Python's `bool` of
the string is returned. `none` models a raised `TypeError`. -/
def intepreterCondition (comps : CompMap) (condition : String) : Option Bool :=
  if condition = "" ∨ pyStrip condition = "" then some true
  else
    match condOps.find? (fun op => pyInStr op condition) with
    | some op =>
      let lr := splitOnce op condition
      pyCompare op (resolveOperand comps (pyStrip lr.1)) (resolveOperand comps (pyStrip lr.2))
    | none => some (condition != "")

/-! ### Claim C3 — guard failure handling -/

/-- C3, counterexample: a guard whose left operand names an unknown
component attribute (`foo.bar` with no component `foo` registered) does
*not* abort: `intepreter_condition` resolves the operand to the literal
string `"foo.bar"` and the `==` comparison against the number `5`
silently returns `False`. The source defines no `GuardEvaluationError` at
all. -/
theorem guardFailure_cex :
    intepreterCondition [] "foo.bar == 5" = some false := by decide

/-- C3, amended: an operand that names an unknown component attribute (a
dotted token that is not a float literal and resolves to no registered
attribute, and is not a quoted literal) is kept as the literal string; an
equality guard against a number then silently evaluates to false (and
`!=` to true), while an ordered comparison against a number raises a
`TypeError` (modelled `none`). No `GuardEvaluationError` exists or is
raised. -/
theorem guardFailure_amended (comps : CompMap) (val : String) (q : ℚ)
    (hdot : pyInStr "." val = true)
    (hnum : pyFloat? val = none)
    (hattr : compAttr? comps (splitOnce "." val).1 (splitOnce "." val).2 = none)
    (hquote : safeEval val = .str val) :
    resolveOperand comps val = .str val ∧
    pyCompare "==" (resolveOperand comps val) (.num q) = some false ∧
    pyCompare "!=" (resolveOperand comps val) (.num q) = some true ∧
    pyCompare "<" (resolveOperand comps val) (.num q) = none := by
  have hres : resolveOperand comps val = .str val := by
    unfold resolveOperand
    rw [if_pos hdot, hnum]
    simp only
    rw [if_pos hdot, hattr, hquote]
  refine ⟨hres, ?_, ?_, ?_⟩ <;> rw [hres] <;> rfl

/-- Witness for `guardFailure_amended` at `foo.bar == 5` with no
components registered. -/
theorem guardFailure_amended_witness :
    resolveOperand [] "foo.bar" = .str "foo.bar" ∧
    pyCompare "==" (resolveOperand [] "foo.bar") (.num 5) = some false ∧
    pyCompare "!=" (resolveOperand [] "foo.bar") (.num 5) = some true ∧
    pyCompare "<" (resolveOperand [] "foo.bar") (.num 5) = none :=
  guardFailure_amended [] "foo.bar" 5 (by decide) (by decide) (by decide) (by decide)

/-! ### Runtime state handlers (simulator.py 2949-3078)

Handlers return one of the `Q_RET_*` codes (simulator.py 583-587); the
dispatcher reads the transition target / super handler from the `QHsm`
slots that `Q_TRAN` / `Q_SUPER` set, which we carry directly in the
result. The guard evaluator `sm.intepreter_condition` and the action
interpreter `sm.intepreter_action` are reached through the handler's
closed-over `self.sm`; the model abstracts them as the parameter `cond`
(guard → result) and records the fired signal whose action block ran. -/

/-- Return codes (simulator.py 583-587). -/
def Q_RET_SUPER : Int := 0
def Q_RET_UNHANDLED : Int := 1
def Q_RET_HANDLED : Int := 2
def Q_RET_IGNORED : Int := 3
def Q_RET_TRAN : Int := 4

/-- A parsed `Signal` (dataclass `Signal`, simulator.py 2720-2729): its
`status` callable is either `Q_HANDLED` (internal signal) or a
`partial(Q_TRAN, qhsm, target)` (transition signal, simulator.py
3215-3229). -/
inductive StatusE where
  | handled
  | tran (target : String)
  deriving Repr, DecidableEq

structure SignalE where
  condition : String
  action : String
  status : StatusE
  deriving Repr, DecidableEq

/-- A `ChoiceSignal` (simulator.py 2732-2734): a `Signal` plus the target
vertex id; after `post_init_choice_states` (simulator.py 3152-3179) its
status is always `partial(Q_TRAN, qhsm, target)`. -/
structure ChoiceSignalE where
  condition : String
  action : String
  target : String
  deriving Repr, DecidableEq

/-- Outcome of one `execute_signal` call: the events it posted through
`EventLoop.add_event` (with their `is_called` flags), the signal whose
action block was interpreted (if any), and the returned code with the
`QHsm` slot it set. -/
inductive RetE where
  | handled
  | tranTo (target : String)
  | superSt (parent : Option String)
  deriving Repr, DecidableEq

def retCode : RetE → Int
  | .handled => Q_RET_HANDLED
  | .tranTo _ => Q_RET_TRAN
  | .superSt _ => Q_RET_SUPER

structure ExecResultE where
  posted : List (String × Bool)
  fired : Option SignalE
  ret : RetE
  deriving Repr, DecidableEq

/-- The signal-selection loop shared by `State.execute_signal`
(simulator.py 3062-3074) and `ChoiceState.execute_signal` (simulator.py
2990-3003): walk the declared signals in order, remember the latest
`else` branch, fire the first non-`else` signal whose guard holds; if
none fired, fire the remembered `else` (or the `els` accumulator). -/
def loopFire (cond : String → Bool) (getCond : α → String) :
    List α → Option α → Option α
  | [], els => els
  | s :: rest, els =>
    if getCond s = "else" then loopFire cond getCond rest (some s)
    else if cond (getCond s) then some s
    else loopFire cond getCond rest els

/-- Model of `State.execute_signal` (simulator.py 3052-3078). `signals` is the
state's `event name ↦ parsed signals` dict, `initialChild` the id of an
initial-vertex child if one exists (`has_initial_state_child`), `parent`
the parent state id. -/
def stateExecuteSignal (cond : String → Bool)
    (signals : List (String × List SignalE))
    (initialChild : Option String) (parent : Option String)
    (signalName : String) : ExecResultE :=
  let sigs := (signals.lookup signalName).getD []
  let posted : List (String × Bool) :=
    if signalName = "entry" ∧ initialChild.isSome then
      [("noconditionTransition", false)]
    else []
  if signalName = "noconditionTransition" then
    match initialChild with
    | none => ⟨posted, none, .handled⟩
    | some child => ⟨posted, none, .tranTo child⟩
  else if sigs.isEmpty then ⟨posted, none, .superSt parent⟩
  else
    match loopFire cond (fun s : SignalE => s.condition) sigs none with
    | some s =>
      ⟨posted, some s,
        match s.status with
        | .handled => .handled
        | .tran t => .tranTo t⟩
    | none => ⟨posted, none, .superSt parent⟩

structure ChoiceExecResultE where
  posted : List (String × Bool)
  fired : Option ChoiceSignalE
  ret : Option RetE
  deriving Repr, DecidableEq

/-- Model of `ChoiceState.execute_signal` (simulator.py 2984-3008). On
`noconditionTransition` with no satisfied guard and no `else` branch the
Python method falls off the end and returns `None` (`ret = none`). -/
def choiceExecuteSignal (cond : String → Bool)
    (conditions : List ChoiceSignalE) (parent : Option String)
    (signalName : String) : ChoiceExecResultE :=
  if signalName = "entry" then ⟨[("noconditionTransition", false)], none, some .handled⟩
  else if signalName = "noconditionTransition" then
    match loopFire cond (fun s : ChoiceSignalE => s.condition) conditions none with
    | some s => ⟨[], some s, some (.tranTo s.target)⟩
    | none => ⟨[], none, none⟩
  else ⟨[], none, some (.superSt parent)⟩

/-- Model of `InitialState.execute_signal` (simulator.py 2965-2975). -/
def initialExecuteSignal (target : String) (parent : Option String)
    (signalName : String) : ExecResultE :=
  if signalName = "entry" then ⟨[("noconditionTransition", false)], none, .handled⟩
  else if signalName = "noconditionTransition" then ⟨[], none, .tranTo target⟩
  else ⟨[], none, .superSt parent⟩

/-- Model of `FinalState.execute_signal` (simulator.py 3016-3021): posts `break`
on entry; any other signal goes to `QHsm_top` (the parent is ignored). -/
def finalExecuteSignal (signalName : String) : ExecResultE :=
  if signalName = "entry" then ⟨[("break", false)], none, .handled⟩
  else ⟨[], none, .superSt none⟩

/-- Specification of the selection loop: the first non-`else` entry whose
guard holds fires; failing that, the last declared `else` branch; failing
that, the accumulator. -/
theorem loopFire_spec (cond : String → Bool) (getCond : α → String)
    (l : List α) (els : Option α) :
    loopFire cond getCond l els =
      match l.find? (fun s => getCond s ≠ "else" ∧ cond (getCond s)) with
      | some s => some s
      | none =>
        match (l.filter (fun s => getCond s = "else")).getLast? with
        | some e => some e
        | none => els := by
  induction l generalizing els with
  | nil => rfl
  | cons s rest ih =>
    by_cases he : getCond s = "else"
    · have hp : (fun s => decide (getCond s ≠ "else" ∧ cond (getCond s))) s = false := by
        simp [he]
      rw [show loopFire cond getCond (s :: rest) els
            = loopFire cond getCond rest (some s) by simp [loopFire, he]]
      rw [ih]
      rw [List.find?_cons_of_neg _ (by simp [he])]
      rw [show (s :: rest).filter (fun s => decide (getCond s = "else"))
            = s :: rest.filter (fun s => decide (getCond s = "else")) by
        simp [List.filter_cons, he]]
      cases hl : (rest.filter (fun s => decide (getCond s = "else"))).getLast? with
      | none =>
        have : rest.filter (fun s => decide (getCond s = "else")) = [] := by
          cases hfe : rest.filter (fun s => decide (getCond s = "else")) with
          | nil => rfl
          | cons a b =>
            rw [hfe] at hl
            simp [List.getLast?] at hl
        simp [this, List.getLast?]
      | some e =>
        have hx : (s :: rest.filter (fun s => decide (getCond s = "else"))).getLast?
            = some e := by
          rcases hfe : rest.filter (fun s => decide (getCond s = "else")) with _ | ⟨a, t⟩
          · rw [hfe] at hl
            simp [List.getLast?] at hl
          · rw [hfe] at hl
            rw [List.getLast?_cons_cons]
            exact hl
        rw [hx]
    · by_cases hc : cond (getCond s)
      · rw [show loopFire cond getCond (s :: rest) els = some s by
          simp [loopFire, he, hc]]
        rw [List.find?_cons_of_pos _ (by simp [he, hc])]
      · rw [show loopFire cond getCond (s :: rest) els
              = loopFire cond getCond rest els by simp [loopFire, he, hc]]
        rw [ih]
        rw [List.find?_cons_of_neg _ (by simp [he, hc])]
        rw [show (s :: rest).filter (fun s => decide (getCond s = "else"))
              = rest.filter (fun s => decide (getCond s = "else")) by
          simp [List.filter_cons, he]]

/-! ### Claim C4 — guarded-signal selection -/

/-- C4: for a composite state dispatching a user event, the declared
signals are scanned in order and exactly the first one whose guard holds
fires; if none passes and an `else` branch exists, exactly the (last
declared) `else` branch fires; if nothing fires the handler returns
`SUPER` towards its parent (`none` = `QHsm_top`, i.e. dropped). A choice
vertex resolves `noconditionTransition` by the same selection, firing a
transition to the chosen branch's target. At most one branch fires per
dispatch (`fired` is a single optional signal). -/
theorem guardedSignalSelection (cond : String → Bool)
    (signals : List (String × List SignalE)) (initialChild parent : Option String)
    (ev : String) (conds : List ChoiceSignalE) (cparent : Option String)
    (h1 : ev ≠ "entry") (h2 : ev ≠ "noconditionTransition") :
    (∀ s, ((signals.lookup ev).getD []).find?
          (fun x => x.condition ≠ "else" ∧ cond x.condition) = some s →
        (stateExecuteSignal cond signals initialChild parent ev).fired = some s ∧
        (stateExecuteSignal cond signals initialChild parent ev).ret =
          (match s.status with | .handled => RetE.handled | .tran t => RetE.tranTo t)) ∧
    (((signals.lookup ev).getD []).find?
          (fun x => x.condition ≠ "else" ∧ cond x.condition) = none →
      ∀ e, (((signals.lookup ev).getD []).filter
          (fun x => x.condition = "else")).getLast? = some e →
        (stateExecuteSignal cond signals initialChild parent ev).fired = some e ∧
        (stateExecuteSignal cond signals initialChild parent ev).ret =
          (match e.status with | .handled => RetE.handled | .tran t => RetE.tranTo t)) ∧
    (((signals.lookup ev).getD []).find?
          (fun x => x.condition ≠ "else" ∧ cond x.condition) = none →
      (((signals.lookup ev).getD []).filter
          (fun x => x.condition = "else")).getLast? = none →
        (stateExecuteSignal cond signals initialChild parent ev).fired = none ∧
        (stateExecuteSignal cond signals initialChild parent ev).ret = .superSt parent) ∧
    (∀ s, conds.find? (fun x => x.condition ≠ "else" ∧ cond x.condition) = some s →
        (choiceExecuteSignal cond conds cparent "noconditionTransition").fired = some s ∧
        (choiceExecuteSignal cond conds cparent "noconditionTransition").ret
          = some (.tranTo s.target)) ∧
    (conds.find? (fun x => x.condition ≠ "else" ∧ cond x.condition) = none →
      ∀ e, (conds.filter (fun x => x.condition = "else")).getLast? = some e →
        (choiceExecuteSignal cond conds cparent "noconditionTransition").fired = some e ∧
        (choiceExecuteSignal cond conds cparent "noconditionTransition").ret
          = some (.tranTo e.target)) := by
  refine ⟨?_, ?_, ?_, ?_, ?_⟩
  · intro s hs
    have hne : ¬ (((signals.lookup ev).getD []).isEmpty = true) := by
      intro hc
      rw [List.isEmpty_iff] at hc
      rw [hc] at hs
      simp at hs
    simp only [stateExecuteSignal]
    rw [if_neg h2, if_neg hne, loopFire_spec, hs]
    exact ⟨rfl, rfl⟩
  · intro hf e he
    have hne : ¬ (((signals.lookup ev).getD []).isEmpty = true) := by
      intro hc
      rw [List.isEmpty_iff] at hc
      rw [hc] at he
      simp [List.getLast?] at he
    simp only [stateExecuteSignal]
    rw [if_neg h2, if_neg hne, loopFire_spec, hf, he]
    exact ⟨rfl, rfl⟩
  · intro hf hl
    by_cases hemp : ((signals.lookup ev).getD []).isEmpty = true
    · simp only [stateExecuteSignal]
      rw [if_neg h2, if_pos hemp]
      exact ⟨rfl, rfl⟩
    · simp only [stateExecuteSignal]
      rw [if_neg h2, if_neg hemp, loopFire_spec, hf, hl]
      exact ⟨rfl, rfl⟩
  · intro s hs
    simp only [choiceExecuteSignal]
    rw [if_neg (by decide : ¬(("noconditionTransition" : String) = "entry")),
      if_pos trivial, loopFire_spec, hs]
    exact ⟨rfl, rfl⟩
  · intro hf e he
    simp only [choiceExecuteSignal]
    rw [if_neg (by decide : ¬(("noconditionTransition" : String) = "entry")),
      if_pos trivial, loopFire_spec, hf, he]
    exact ⟨rfl, rfl⟩

/-- Witness for `guardedSignalSelection`: a state with three signals for
event `go` — a failing guard, a passing guard with a transition, and an
`else` — fires exactly the second one; a choice vertex with a failing
guard and an `else` fires the `else` branch. -/
theorem guardedSignalSelection_witness :
    ((stateExecuteSignal (fun c => c = "ok")
        [("go", [⟨"no", "a1", .handled⟩, ⟨"ok", "a2", .tran "T"⟩,
                 ⟨"else", "a3", .handled⟩])]
        none (some "parent") "go").fired
      = some ⟨"ok", "a2", .tran "T"⟩) ∧
    ((choiceExecuteSignal (fun c => c = "ok")
        [⟨"no", "b1", "T1"⟩, ⟨"else", "b2", "T2"⟩]
        none "noconditionTransition").ret = some (.tranTo "T2")) := by
  constructor
  · exact ((guardedSignalSelection (fun c => c = "ok")
      [("go", [⟨"no", "a1", .handled⟩, ⟨"ok", "a2", .tran "T"⟩, ⟨"else", "a3", .handled⟩])]
      none (some "parent") "go" [] none (by decide) (by decide)).1
      ⟨"ok", "a2", .tran "T"⟩ (by decide)).1
  · exact ((guardedSignalSelection (fun c => c = "ok")
      [] none none "go" [⟨"no", "b1", "T1"⟩, ⟨"else", "b2", "T2"⟩] none
      (by decide) (by decide)).2.2.2.2
      (by decide) ⟨"else", "b2", "T2"⟩ (by decide)).2

/-! ### Claim C9 — `ChoiceState.execute_signal` is not total -/

/-- C9: on `noconditionTransition` with no satisfied guard and no `else`
branch, `ChoiceState.execute_signal` returns no status at all (Python
`None`, modelled `ret = none`), which is none of the five `Q_RET_*`
codes; for every other signal name it returns one of the defined codes. -/
theorem choiceExecuteSignalNotTotal (cond : String → Bool)
    (conds : List ChoiceSignalE) (parent : Option String) :
    ((choiceExecuteSignal cond conds parent "noconditionTransition").ret = none ↔
      (conds.find? (fun x => x.condition ≠ "else" ∧ cond x.condition) = none ∧
       (conds.filter (fun x => x.condition = "else")).getLast? = none)) ∧
    (∀ sig, sig ≠ "noconditionTransition" →
      ∃ r, (choiceExecuteSignal cond conds parent sig).ret = some r ∧
        (retCode r = Q_RET_SUPER ∨ retCode r = Q_RET_UNHANDLED ∨ retCode r = Q_RET_HANDLED
          ∨ retCode r = Q_RET_IGNORED ∨ retCode r = Q_RET_TRAN)) := by
  constructor
  · simp only [choiceExecuteSignal]
    rw [if_neg (by decide : ¬(("noconditionTransition" : String) = "entry")),
      if_pos trivial, loopFire_spec]
    cases hf : conds.find? (fun x => x.condition ≠ "else" ∧ cond x.condition) with
    | some s => simp
    | none =>
      cases hl : (conds.filter (fun x => x.condition = "else")).getLast? with
      | some e => simp
      | none => simp
  · intro sig hs
    by_cases hsig : sig = "entry"
    · refine ⟨.handled, ?_, ?_⟩
      · simp only [choiceExecuteSignal]
        rw [if_pos hsig]
      · right
        right
        left
        rfl
    · refine ⟨.superSt parent, ?_, ?_⟩
      · simp only [choiceExecuteSignal]
        rw [if_neg hsig, if_neg hs]
      · left
        rfl

/-- Witness for `choiceExecuteSignalNotTotal`: a choice vertex with a
single failing guarded branch and no `else` yields `none` on
`noconditionTransition`, and a valid code on `tick`. -/
theorem choiceExecuteSignalNotTotal_witness :
    ((choiceExecuteSignal (fun _ => false) [⟨"x > 0", "a", "T"⟩] none
        "noconditionTransition").ret = none) ∧
    (∃ r, (choiceExecuteSignal (fun _ => false) [⟨"x > 0", "a", "T"⟩] none
        "tick").ret = some r ∧
        (retCode r = Q_RET_SUPER ∨ retCode r = Q_RET_UNHANDLED ∨ retCode r = Q_RET_HANDLED
          ∨ retCode r = Q_RET_IGNORED ∨ retCode r = Q_RET_TRAN)) := by
  constructor
  · exact (choiceExecuteSignalNotTotal (fun _ => false) [⟨"x > 0", "a", "T"⟩]
      none).1.mpr (by decide)
  · exact (choiceExecuteSignalNotTotal (fun _ => false) [⟨"x > 0", "a", "T"⟩]
      none).2 "tick" (by decide)

/-! ### Claim C8 — system events never reach `called_events` -/

/-- The system/internal event names named by the claim: `Q_INIT_SIG`
(simulator.py 578, never posted at all), `entry`, `exit`,
`noconditionTransition` and `break`. -/
def sysEventNames : List String :=
  ["Q_INIT_SIG", "entry", "exit", "noconditionTransition", "break"]

theorem applyPosts_called (posts : List (String × Bool)) (st : ELState) :
    (applyPosts posts st).called_events
      = st.called_events ++ (posts.filter (fun p => p.2)).map (fun p => p.1) := by
  induction posts generalizing st with
  | nil => simp [applyPosts]
  | cons p rest ih =>
    have step : applyPosts (p :: rest) st = applyPosts rest (addEvent p.1 p.2 st) := rfl
    rw [step, ih]
    cases hb : p.2 with
    | false => simp [addEvent, List.filter_cons, hb]
    | true => simp [addEvent, List.filter_cons, hb]

/-- C8: `add_event` appends to `called_events` exactly when `is_called`
is true; the runtime handlers (`InitialState`, `ChoiceState`,
`FinalState`, `State`) post their system signals with `is_called` left
false, so applying any handler's posts never extends `called_events`; and
a `called_events` trace free of the system event names stays free of them
under any sequence of posts whose called-flagged events avoid those
names. -/
theorem systemEventsInvisible :
    (∀ e st, (addEvent e false st).called_events = st.called_events) ∧
    (∀ e st, (addEvent e true st).called_events = st.called_events ++ [e]) ∧
    (∀ target parent sig,
      (initialExecuteSignal target parent sig).posted.all (fun p => p.2 = false)) ∧
    (∀ (cond : String → Bool) conds parent sig,
      (choiceExecuteSignal cond conds parent sig).posted.all (fun p => p.2 = false)) ∧
    (∀ sig, (finalExecuteSignal sig).posted.all (fun p => p.2 = false)) ∧
    (∀ (cond : String → Bool) signals initialChild parent sig,
      (stateExecuteSignal cond signals initialChild parent sig).posted.all
        (fun p => p.2 = false)) ∧
    (∀ (cond : String → Bool) signals initialChild parent sig st,
      (applyPosts (stateExecuteSignal cond signals initialChild parent sig).posted
        st).called_events = st.called_events) ∧
    (∀ posts st,
      (∀ p ∈ posts, p.2 = true → ¬ p.1 ∈ sysEventNames) →
      (∀ e ∈ st.called_events, ¬ e ∈ sysEventNames) →
      (∀ e ∈ (applyPosts posts st).called_events, ¬ e ∈ sysEventNames)) := by
  have hposted : ∀ (cond : String → Bool) signals initialChild parent sig,
      (stateExecuteSignal cond signals initialChild parent sig).posted
        = (if sig = "entry" ∧ initialChild.isSome then
            [("noconditionTransition", false)] else []) ∨
      (stateExecuteSignal cond signals initialChild parent sig).posted = [] := by
    intro cond signals initialChild parent sig
    left
    simp only [stateExecuteSignal]
    by_cases h2 : sig = "noconditionTransition"
    · rw [if_pos h2]
      cases initialChild <;> rfl
    · rw [if_neg h2]
      by_cases hemp : (((signals.lookup sig).getD []).isEmpty = true)
      · rw [if_pos hemp]
      · rw [if_neg hemp]
        cases loopFire cond (fun s : SignalE => s.condition)
            ((signals.lookup sig).getD []) none with
        | none => rfl
        | some s => rfl
  refine ⟨?_, ?_, ?_, ?_, ?_, ?_, ?_, ?_⟩
  · intro e st
    simp [addEvent]
  · intro e st
    simp [addEvent]
  · intro target parent sig
    simp only [initialExecuteSignal]
    by_cases h : sig = "entry"
    · rw [if_pos h]
      decide
    · rw [if_neg h]
      by_cases h2 : sig = "noconditionTransition"
      · rw [if_pos h2]
        rfl
      · rw [if_neg h2]
        rfl
  · intro cond conds parent sig
    simp only [choiceExecuteSignal]
    by_cases h : sig = "entry"
    · rw [if_pos h]
      decide
    · rw [if_neg h]
      by_cases h2 : sig = "noconditionTransition"
      · rw [if_pos h2]
        cases loopFire cond (fun s : ChoiceSignalE => s.condition) conds none with
        | none => rfl
        | some s => rfl
      · rw [if_neg h2]
        rfl
  · intro sig
    simp only [finalExecuteSignal]
    by_cases h : sig = "entry"
    · rw [if_pos h]
      decide
    · rw [if_neg h]
      decide
  · intro cond signals initialChild parent sig
    rcases hposted cond signals initialChild parent sig with h | h <;> rw [h]
    · by_cases hc : sig = "entry" ∧ initialChild.isSome
      · rw [if_pos hc]
        decide
      · rw [if_neg hc]
        decide
    · decide
  · intro cond signals initialChild parent sig st
    rw [applyPosts_called]
    rcases hposted cond signals initialChild parent sig with h | h <;> rw [h]
    · by_cases hc : sig = "entry" ∧ initialChild.isSome
      · rw [if_pos hc]
        simp
      · rw [if_neg hc]
        simp
    · simp
  · intro posts st hpost hst e he
    rw [applyPosts_called] at he
    rcases List.mem_append.mp he with hin | hin
    · exact hst e hin
    · obtain ⟨p, hp, hpe⟩ := List.mem_map.mp hin
      have hpf := List.mem_filter.mp hp
      have := hpost p hpf.1 (by simpa using hpf.2)
      rw [hpe] at this
      exact this

/-- Witness for `systemEventsInvisible`: a trace built from the handlers'
system posts plus one device post (`imp.impulseA` style called event)
contains no system event name. -/
theorem systemEventsInvisible_witness :
    ∀ e ∈ (applyPosts
        ((initialExecuteSignal "A" none "entry").posted ++ [("impulseA", true)])
        { events := [], called_events := [], current_event_idx := 0,
          insert_event_idx := 0 }).called_events, ¬ e ∈ sysEventNames :=
  systemEventsInvisible.2.2.2.2.2.2.2
    ((initialExecuteSignal "A" none "entry").posted ++ [("impulseA", true)])
    { events := [], called_events := [], current_event_idx := 0, insert_event_idx := 0 }
    (by decide) (by decide)

/-! ### Builder: initial vertices (`init_initial_states`,
`find_transitions_for_state`, simulator.py 3272-3299) -/

structure CGMLTransitionE where
  id : String
  source : String
  target : String
  actions : String
  deriving Repr, DecidableEq

structure CGMLInitialStateE where
  parent : Option String
  deriving Repr, DecidableEq

/-- The runtime `InitialState` as built by `init_initial_states`: the kept
target and the parent. -/
structure InitialStateE where
  target : String
  parent : Option String
  deriving Repr, DecidableEq

/-- Model of `find_transitions_for_state` (simulator.py 3291-3299). -/
def findTransitionsForState (stateId : String) (ts : List CGMLTransitionE) :
    List CGMLTransitionE :=
  ts.filter (fun t => t.source = stateId)

/-- Model of `init_initial_states` (simulator.py 3272-3288): every initial vertex
whose outgoing-transition count differs from one is skipped (`continue`);
the rest are kept with the single transition's target. -/
def initInitialStates (inits : List (String × CGMLInitialStateE))
    (ts : List CGMLTransitionE) : List (String × InitialStateE) :=
  inits.filterMap (fun p =>
    match findTransitionsForState p.1 ts with
    | [t] => some (p.1, ⟨t.target, p.2.parent⟩)
    | _ => none)

/-! ### Claim C6 — initial-vertex discard policy -/

/-- C6: a vertex id appears in the runtime initial-state map exactly when
it was declared as an initial vertex and has exactly one outgoing
transition, in which case its entry carries that transition's target; a
vertex whose outgoing-transition count differs from one is silently
absent (no error is raised — the build function is total). -/
theorem initialVertexDiscard (inits : List (String × CGMLInitialStateE))
    (ts : List CGMLTransitionE) (sid : String) :
    (∀ e, (sid, e) ∈ initInitialStates inits ts ↔
        ∃ iv t, (sid, iv) ∈ inits ∧ findTransitionsForState sid ts = [t]
          ∧ e = ⟨t.target, iv.parent⟩) ∧
    ((findTransitionsForState sid ts).length ≠ 1 →
      ∀ e, ¬ (sid, e) ∈ initInitialStates inits ts) := by
  have hmain : ∀ e, (sid, e) ∈ initInitialStates inits ts ↔
      ∃ iv t, (sid, iv) ∈ inits ∧ findTransitionsForState sid ts = [t]
        ∧ e = ⟨t.target, iv.parent⟩ := by
    intro e
    constructor
    · intro he
      simp only [initInitialStates] at he
      obtain ⟨p, hp, hf⟩ := List.mem_filterMap.mp he
      rcases p with ⟨k, iv⟩
      cases hft : findTransitionsForState k ts with
      | nil =>
        rw [hft] at hf
        simp at hf
      | cons t rest =>
        cases rest with
        | nil =>
          rw [hft] at hf
          simp only [Option.some.injEq, Prod.mk.injEq] at hf
          obtain ⟨hk, hev⟩ := hf
          refine ⟨iv, t, ?_, ?_, hev.symm⟩
          · rw [← hk]
            exact hp
          · rw [← hk]
            exact hft
        | cons t2 rest2 =>
          rw [hft] at hf
          simp at hf
    · rintro ⟨iv, t, hmem, hft, rfl⟩
      simp only [initInitialStates]
      apply List.mem_filterMap.mpr
      refine ⟨(sid, iv), hmem, ?_⟩
      simp only
      rw [hft]
  refine ⟨hmain, ?_⟩
  intro hlen e he
  obtain ⟨iv, t, _, hft, _⟩ := (hmain e).mp he
  rw [hft] at hlen
  simp at hlen

/-- Witness for `initialVertexDiscard`: initial vertex `i1` with one
outgoing transition to `A` is kept; `i2` with two outgoing transitions is
silently discarded. -/
theorem initialVertexDiscard_witness :
    (("i1", (⟨"A", none⟩ : InitialStateE)) ∈ initInitialStates
        [("i1", ⟨none⟩), ("i2", ⟨some "S"⟩)]
        [⟨"t1", "i1", "A", ""⟩, ⟨"t2", "i2", "B", ""⟩, ⟨"t3", "i2", "C", ""⟩]) ∧
    (∀ e, ¬ (("i2", e) ∈ initInitialStates
        [("i1", ⟨none⟩), ("i2", ⟨some "S"⟩)]
        [⟨"t1", "i1", "A", ""⟩, ⟨"t2", "i2", "B", ""⟩, ⟨"t3", "i2", "C", ""⟩])) := by
  constructor
  · exact ((initialVertexDiscard [("i1", ⟨none⟩), ("i2", ⟨some "S"⟩)]
      [⟨"t1", "i1", "A", ""⟩, ⟨"t2", "i2", "B", ""⟩, ⟨"t3", "i2", "C", ""⟩] "i1").1
      ⟨"A", none⟩).mpr ⟨⟨none⟩, ⟨"t1", "i1", "A", ""⟩, by decide, by decide, rfl⟩
  · exact (initialVertexDiscard [("i1", ⟨none⟩), ("i2", ⟨some "S"⟩)]
      [⟨"t1", "i1", "A", ""⟩, ⟨"t2", "i2", "B", ""⟩, ⟨"t3", "i2", "C", ""⟩] "i2").2
      (by decide)

/-! ### Semantic parser: meta notes (`CGMLParser.parse_cgml` loop over
processed nodes, simulator.py 2391-2449, and `_parse_meta`,
simulator.py 2498-2505)

`_process_state_data` classifies each node as a state, a note, or a
vertex; the `parse_cgml` loop then reads formal `CGML_META` /
`CGML_COMPONENT` notes. Only those branches touch the meta accumulator
and the `platform` / `standard_version` variables, modelled here. -/

inductive PNodeE where
  | pstate
  | pvertex
  | pnote (ntype : String) (name : String) (text : String)
  deriving Repr, DecidableEq

structure CGMLMetaE where
  id : String
  values : List (String × String)
  deriving Repr, DecidableEq

/-- Model of `_is_empty_meta` (simulator.py 2184-2185). -/
def isEmptyMeta (m : CGMLMetaE) : Bool := m.values = [] ∧ m.id = ""

/-- Python dict assignment `d[k] = v` on an association list: overwrite
the existing binding or append. -/
def insertKV : List (String × String) → String → String → List (String × String)
  | [], k, v => [(k, v)]
  | (k0, v0) :: rest, k, v =>
    if k0 = k then (k, v) :: rest else (k0, v0) :: insertKV rest k v

/-- Model of `CGMLParser._parse_meta` (simulator.py 2498-2505): split on blank
lines; each chunk containing a `/` becomes a stripped key/value pair. -/
def parseMetaText (text : String) : List (String × String) :=
  (pySplitAll "\n\n" text).foldl
    (fun acc param =>
      if pyInStr "/" param then
        insertKV acc (pyStrip (splitOnce "/" param).1) (pyStrip (splitOnce "/" param).2)
      else acc) []

structure ParseAccE where
  meta : CGMLMetaE
  platform : String
  standardVersion : String
  deriving Repr, DecidableEq

/-- The per-graph accumulator before the node loop (simulator.py
2366-2368): empty meta, empty `platform` and `standard_version`. -/
def initParseAcc : ParseAccE := ⟨⟨"", []⟩, "", ""⟩

/-- The node loop of `parse_cgml` (simulator.py 2391-2449), restricted to
its effect on the meta accumulator: formal `CGML_META` notes must be
unique (`Double meta nodes!`) and carry `platform` and `standardVersion`
(`No platform or standardVersion.`); formal `CGML_COMPONENT` notes must
carry `id` and `type`; everything else leaves the accumulator alone. -/
def processNodes : List (String × PNodeE) → ParseAccE → Except String ParseAccE
  | [], acc => .ok acc
  | (nid, node) :: rest, acc =>
    match node with
    | .pstate => processNodes rest acc
    | .pvertex => processNodes rest acc
    | .pnote ntype name text =>
      if ntype = "informal" then processNodes rest acc
      else if name = "CGML_META" then
        if isEmptyMeta acc.meta = true then
          match (parseMetaText text).lookup "platform",
              (parseMetaText text).lookup "standardVersion" with
          | some p, some sv =>
            processNodes rest
              { meta := ⟨nid, parseMetaText text⟩, platform := p, standardVersion := sv }
          | _, _ => .error "No platform or standardVersion."
        else .error "Double meta nodes!"
      else if name = "CGML_COMPONENT" then
        match (parseMetaText text).lookup "id", (parseMetaText text).lookup "type" with
        | some _, some _ => processNodes rest acc
        | _, _ => .error "Component doesn't have type or id."
      else processNodes rest acc

/-- Recognizer for formal `CGML_META` notes. -/
def isFormalMeta (p : String × PNodeE) : Bool :=
  match p.2 with
  | .pnote ntype name _ => ¬ (ntype = "informal") ∧ name = "CGML_META"
  | _ => false

def countMeta (nodes : List (String × PNodeE)) : Nat :=
  (nodes.filter isFormalMeta).length

theorem processNodes_error_of_nonempty_meta
    (nodes : List (String × PNodeE)) (acc : ParseAccE)
    (hacc : ¬ (isEmptyMeta acc.meta = true))
    (hmeta : ∃ p ∈ nodes, isFormalMeta p = true) :
    ∃ e, processNodes nodes acc = .error e := by
  induction nodes generalizing acc with
  | nil =>
    obtain ⟨p, hp, _⟩ := hmeta
    simp at hp
  | cons hd rest ih =>
    obtain ⟨p, hp, hfm⟩ := hmeta
    rcases hd with ⟨nid, node⟩
    cases node with
    | pstate =>
      have hmem : p ∈ rest := by
        rcases List.mem_cons.mp hp with heq | h
        · rw [heq] at hfm
          simp [isFormalMeta] at hfm
        · exact h
      exact ih acc hacc ⟨p, hmem, hfm⟩
    | pvertex =>
      have hmem : p ∈ rest := by
        rcases List.mem_cons.mp hp with heq | h
        · rw [heq] at hfm
          simp [isFormalMeta] at hfm
        · exact h
      exact ih acc hacc ⟨p, hmem, hfm⟩
    | pnote ntype name text =>
      by_cases hinf : ntype = "informal"
      · have hmem : p ∈ rest := by
          rcases List.mem_cons.mp hp with heq | h
          · rw [heq] at hfm
            simp [isFormalMeta, hinf] at hfm
          · exact h
        obtain ⟨e, he⟩ := ih acc hacc ⟨p, hmem, hfm⟩
        refine ⟨e, ?_⟩
        simp only [processNodes, if_pos hinf]
        exact he
      · by_cases hm : name = "CGML_META"
        · refine ⟨"Double meta nodes!", ?_⟩
          simp only [processNodes, if_neg hinf, if_pos hm, if_neg hacc]
        · by_cases hc : name = "CGML_COMPONENT"
          · have hmem : p ∈ rest := by
              rcases List.mem_cons.mp hp with heq | h
              · rw [heq] at hfm
                simp [isFormalMeta, hm] at hfm
              · exact h
            simp only [processNodes, if_neg hinf, if_neg hm, if_pos hc]
            cases h1 : (parseMetaText text).lookup "id" with
            | none => exact ⟨"Component doesn't have type or id.", rfl⟩
            | some i =>
              cases h2 : (parseMetaText text).lookup "type" with
              | none => exact ⟨"Component doesn't have type or id.", rfl⟩
              | some t => exact ih acc hacc ⟨p, hmem, hfm⟩
          · have hmem : p ∈ rest := by
              rcases List.mem_cons.mp hp with heq | h
              · rw [heq] at hfm
                simp [isFormalMeta, hm] at hfm
              · exact h
            obtain ⟨e, he⟩ := ih acc hacc ⟨p, hmem, hfm⟩
            refine ⟨e, ?_⟩
            simp only [processNodes, if_neg hinf, if_neg hm, if_neg hc]
            exact he

theorem processNodes_preserve (nodes : List (String × PNodeE)) (acc acc' : ParseAccE)
    (hnometa : ∀ p ∈ nodes, isFormalMeta p = false)
    (h : processNodes nodes acc = .ok acc') : acc' = acc := by
  induction nodes generalizing acc with
  | nil =>
    simp only [processNodes, Except.ok.injEq] at h
    exact h.symm
  | cons hd rest ih =>
    rcases hd with ⟨nid, node⟩
    cases node with
    | pstate => exact ih acc (fun p hp => hnometa p (List.mem_cons_of_mem _ hp)) h
    | pvertex => exact ih acc (fun p hp => hnometa p (List.mem_cons_of_mem _ hp)) h
    | pnote ntype name text =>
      have hhd := hnometa (nid, .pnote ntype name text) (List.mem_cons_self _ _)
      by_cases hinf : ntype = "informal"
      · simp only [processNodes, if_pos hinf] at h
        exact ih acc (fun p hp => hnometa p (List.mem_cons_of_mem _ hp)) h
      · by_cases hm : name = "CGML_META"
        · exfalso
          simp [isFormalMeta, hinf, hm] at hhd
        · by_cases hc : name = "CGML_COMPONENT"
          · simp only [processNodes, if_neg hinf, if_neg hm, if_pos hc] at h
            cases h1 : (parseMetaText text).lookup "id" with
            | none =>
              rw [h1] at h
              simp at h
            | some i =>
              cases h2 : (parseMetaText text).lookup "type" with
              | none =>
                rw [h1, h2] at h
                simp at h
              | some t =>
                rw [h1, h2] at h
                exact ih acc (fun p hp => hnometa p (List.mem_cons_of_mem _ hp)) h
          · simp only [processNodes, if_neg hinf, if_neg hm, if_neg hc] at h
            exact ih acc (fun p hp => hnometa p (List.mem_cons_of_mem _ hp)) h

theorem countMeta_cons_of_meta (hd : String × PNodeE) (rest : List (String × PNodeE))
    (h : isFormalMeta hd = true) : countMeta (hd :: rest) = countMeta rest + 1 := by
  simp [countMeta, List.filter_cons, h]

theorem countMeta_cons_of_not (hd : String × PNodeE) (rest : List (String × PNodeE))
    (h : isFormalMeta hd = false) : countMeta (hd :: rest) = countMeta rest := by
  simp [countMeta, List.filter_cons, h]

theorem no_meta_of_countMeta_zero (rest : List (String × PNodeE))
    (h : countMeta rest = 0) : ∀ p ∈ rest, isFormalMeta p = false := by
  intro p hp
  cases hfp : isFormalMeta p with
  | false => rfl
  | true =>
    exfalso
    have hmem : p ∈ rest.filter isFormalMeta := List.mem_filter.mpr ⟨hp, hfp⟩
    have hne : rest.filter isFormalMeta ≠ [] := List.ne_nil_of_mem hmem
    simp only [countMeta] at h
    exact hne (List.length_eq_zero.mp h)

theorem exists_meta_of_countMeta_pos (nodes : List (String × PNodeE))
    (h : 1 ≤ countMeta nodes) : ∃ p ∈ nodes, isFormalMeta p = true := by
  have hne : nodes.filter isFormalMeta ≠ [] := by
    intro hc
    simp [countMeta, hc] at h
  obtain ⟨p, hp⟩ := List.exists_mem_of_ne_nil _ hne
  have hmf := List.mem_filter.mp hp
  exact ⟨p, hmf.1, hmf.2⟩

theorem isFormalMeta_elim (nid : String) (node : PNodeE)
    (h : isFormalMeta (nid, node) = true) :
    ∃ ntype text, node = .pnote ntype "CGML_META" text ∧ ntype ≠ "informal" := by
  cases node with
  | pstate => simp [isFormalMeta] at h
  | pvertex => simp [isFormalMeta] at h
  | pnote a b c =>
    simp [isFormalMeta] at h
    exact ⟨a, c, by rw [h.2], h.1⟩

/-- A node that is not a formal meta note either steps through without
touching the accumulator or aborts with an error (a component note with
missing `id`/`type`). -/
theorem processNodes_cons_step (nid : String) (node : PNodeE)
    (rest : List (String × PNodeE)) (acc : ParseAccE)
    (hnm : isFormalMeta (nid, node) = false) :
    processNodes ((nid, node) :: rest) acc = processNodes rest acc ∨
    ∃ e, processNodes ((nid, node) :: rest) acc = .error e := by
  cases node with
  | pstate => exact Or.inl rfl
  | pvertex => exact Or.inl rfl
  | pnote ntype name text =>
    by_cases hinf : ntype = "informal"
    · left
      simp only [processNodes, if_pos hinf]
    · by_cases hm : name = "CGML_META"
      · exfalso
        simp [isFormalMeta, hinf, hm] at hnm
      · by_cases hc : name = "CGML_COMPONENT"
        · simp only [processNodes, if_neg hinf, if_neg hm, if_pos hc]
          cases h1 : (parseMetaText text).lookup "id" with
          | none => exact Or.inr ⟨_, rfl⟩
          | some i =>
            cases h2 : (parseMetaText text).lookup "type" with
            | none => exact Or.inr ⟨_, rfl⟩
            | some t => exact Or.inl rfl
        · left
          simp only [processNodes, if_neg hinf, if_neg hm, if_neg hc]

/-- Two formal `CGML_META` notes always abort the parse. -/
theorem processNodes_error_of_two_meta (nodes : List (String × PNodeE)) :
    ∀ acc : ParseAccE, 2 ≤ countMeta nodes →
      ∃ e, processNodes nodes acc = .error e := by
  induction nodes with
  | nil =>
    intro acc h2m
    simp [countMeta] at h2m
  | cons hd rest ih =>
    intro acc h2m
    rcases hd with ⟨nid, node⟩
    by_cases hfm : isFormalMeta (nid, node) = true
    · obtain ⟨ntype, text, hnode, hinf⟩ := isFormalMeta_elim nid node hfm
      subst hnode
      have hrest : 1 ≤ countMeta rest := by
        rw [countMeta_cons_of_meta _ _ hfm] at h2m
        omega
      by_cases hacc : isEmptyMeta acc.meta = true
      · simp only [processNodes, if_neg hinf, if_pos rfl, if_pos hacc]
        cases h1 : (parseMetaText text).lookup "platform" with
        | none => exact ⟨_, rfl⟩
        | some p =>
          cases h2 : (parseMetaText text).lookup "standardVersion" with
          | none => exact ⟨_, rfl⟩
          | some sv =>
            apply processNodes_error_of_nonempty_meta
            · have hval : parseMetaText text ≠ [] := by
                intro hcnil
                rw [hcnil] at h1
                simp [List.lookup] at h1
              simp [isEmptyMeta, hval]
            · exact exists_meta_of_countMeta_pos rest hrest
      · exact ⟨"Double meta nodes!",
          by simp [processNodes, if_neg hinf, if_neg hacc]⟩
    · have hb : isFormalMeta (nid, node) = false := eq_false_of_ne_true hfm
      have hrest : 2 ≤ countMeta rest := by
        rw [countMeta_cons_of_not _ _ hb] at h2m
        exact h2m
      rcases processNodes_cons_step nid node rest acc hb with hstep | ⟨e, he⟩
      · rw [hstep]
        exact ih acc hrest
      · exact ⟨e, he⟩

/-- A formal `CGML_META` note whose parameters lack `platform` or
`standardVersion` always aborts the parse. -/
theorem processNodes_error_of_bad_meta (nid ntype text : String)
    (hinf : ntype ≠ "informal")
    (hlack : (parseMetaText text).lookup "platform" = none ∨
      (parseMetaText text).lookup "standardVersion" = none) :
    ∀ (nodes : List (String × PNodeE)) (acc : ParseAccE),
      (nid, PNodeE.pnote ntype "CGML_META" text) ∈ nodes →
      ∃ e, processNodes nodes acc = .error e := by
  intro nodes
  induction nodes with
  | nil =>
    intro acc hmem
    simp at hmem
  | cons hd rest ih =>
    intro acc hmem
    rcases List.mem_cons.mp hmem with heq | hmemr
    · rw [← heq]
      by_cases hacc : isEmptyMeta acc.meta = true
      · simp only [processNodes, if_neg hinf, if_pos rfl, if_pos hacc]
        cases h1 : (parseMetaText text).lookup "platform" with
        | none => exact ⟨_, rfl⟩
        | some p =>
          cases h2 : (parseMetaText text).lookup "standardVersion" with
          | none => exact ⟨_, rfl⟩
          | some sv =>
            exfalso
            rcases hlack with hl | hl
            · rw [hl] at h1
              exact Option.noConfusion h1
            · rw [hl] at h2
              exact Option.noConfusion h2
      · exact ⟨"Double meta nodes!",
          by simp [processNodes, if_neg hinf, if_neg hacc]⟩
    · rcases hd with ⟨hnid, hnode⟩
      by_cases hfm : isFormalMeta (hnid, hnode) = true
      · obtain ⟨nt2, tx2, hnode2, hinf2⟩ := isFormalMeta_elim hnid hnode hfm
        subst hnode2
        by_cases hacc : isEmptyMeta acc.meta = true
        · simp only [processNodes, if_neg hinf2, if_pos rfl, if_pos hacc]
          cases h1 : (parseMetaText tx2).lookup "platform" with
          | none => exact ⟨_, rfl⟩
          | some p =>
            cases h2 : (parseMetaText tx2).lookup "standardVersion" with
            | none => exact ⟨_, rfl⟩
            | some sv => exact ih _ hmemr
        · exact ⟨"Double meta nodes!",
            by simp [processNodes, if_neg hinf2, if_neg hacc]⟩
      · have hb : isFormalMeta (hnid, hnode) = false := eq_false_of_ne_true hfm
        rcases processNodes_cons_step hnid hnode rest acc hb with hstep | ⟨e, he⟩
        · rw [hstep]
          exact ih acc hmemr
        · exact ⟨e, he⟩

/-- When the parse succeeds and exactly one formal `CGML_META` note is
present, the resulting `platform`, `standard_version` and meta values
come from that note. -/
theorem processNodes_ok_single_meta (nid ntype text : String)
    (hinf : ntype ≠ "informal") :
    ∀ (nodes : List (String × PNodeE)) (acc0 acc : ParseAccE),
      (nid, PNodeE.pnote ntype "CGML_META" text) ∈ nodes →
      countMeta nodes = 1 →
      isEmptyMeta acc0.meta = true →
      processNodes nodes acc0 = .ok acc →
      (parseMetaText text).lookup "platform" = some acc.platform ∧
      (parseMetaText text).lookup "standardVersion" = some acc.standardVersion ∧
      acc.meta.values = parseMetaText text ∧ acc.meta.id = nid := by
  intro nodes
  induction nodes with
  | nil =>
    intro acc0 acc hmem
    simp at hmem
  | cons hd rest ih =>
    intro acc0 acc hmem hcount hacc h
    rcases List.mem_cons.mp hmem with heq | hmemr
    · rw [← heq] at hcount h
      have hfm : isFormalMeta (nid, PNodeE.pnote ntype "CGML_META" text) = true := by
        simp [isFormalMeta, hinf]
      have hrest0 : countMeta rest = 0 := by
        rw [countMeta_cons_of_meta _ _ hfm] at hcount
        omega
      simp only [processNodes, if_neg hinf, if_pos rfl, if_pos hacc] at h
      cases h1 : (parseMetaText text).lookup "platform" with
      | none =>
        rw [h1] at h
        simp at h
      | some p =>
        cases h2 : (parseMetaText text).lookup "standardVersion" with
        | none =>
          rw [h1, h2] at h
          simp at h
        | some sv =>
          rw [h1, h2] at h
          have hpres := processNodes_preserve rest _ acc
            (no_meta_of_countMeta_zero rest hrest0) h
          rw [hpres]
          exact ⟨rfl, rfl, rfl, rfl⟩
    · rcases hd with ⟨hnid, hnode⟩
      by_cases hfm : isFormalMeta (hnid, hnode) = true
      · exfalso
        have hrest0 : countMeta rest = 0 := by
          rw [countMeta_cons_of_meta _ _ hfm] at hcount
          omega
        have hz := no_meta_of_countMeta_zero rest hrest0 _ hmemr
        simp [isFormalMeta, hinf] at hz
      · have hb : isFormalMeta (hnid, hnode) = false := eq_false_of_ne_true hfm
        have hrest : countMeta rest = 1 := by
          rw [countMeta_cons_of_not _ _ hb] at hcount
          exact hcount
        rcases processNodes_cons_step hnid hnode rest acc0 hb with hstep | ⟨e, he⟩
        · rw [hstep] at h
          exact ih acc0 acc hmemr hrest hacc h
        · rw [he] at h
          simp at h

/-! ### Claim C7 — meta note requirements -/

/-- C7: the parse errors whenever two formal `CGML_META` notes are
present; it errors whenever a formal meta note's parsed parameters lack
`platform` or `standardVersion`; and when it succeeds with exactly one
formal meta note, that note's `platform` and `standardVersion` values
populate the machine. -/
theorem metaNoteRequirements (nodes : List (String × PNodeE)) :
    (2 ≤ countMeta nodes → ∃ e, processNodes nodes initParseAcc = .error e) ∧
    (∀ nid ntype text, (nid, PNodeE.pnote ntype "CGML_META" text) ∈ nodes →
      ntype ≠ "informal" →
      ((parseMetaText text).lookup "platform" = none ∨
        (parseMetaText text).lookup "standardVersion" = none) →
      ∃ e, processNodes nodes initParseAcc = .error e) ∧
    (∀ nid ntype text acc, (nid, PNodeE.pnote ntype "CGML_META" text) ∈ nodes →
      ntype ≠ "informal" → countMeta nodes = 1 →
      processNodes nodes initParseAcc = .ok acc →
      (parseMetaText text).lookup "platform" = some acc.platform ∧
      (parseMetaText text).lookup "standardVersion" = some acc.standardVersion ∧
      acc.meta.values = parseMetaText text ∧ acc.meta.id = nid) := by
  refine ⟨?_, ?_, ?_⟩
  · exact processNodes_error_of_two_meta nodes initParseAcc
  · intro nid ntype text hmem hinf hlack
    exact processNodes_error_of_bad_meta nid ntype text hinf hlack nodes initParseAcc hmem
  · intro nid ntype text acc hmem hinf hcount h
    exact processNodes_ok_single_meta nid ntype text hinf nodes initParseAcc acc
      hmem hcount rfl h

/-- Witness for `metaNoteRequirements`: two meta notes error; a meta note
lacking `standardVersion` errors; a single well-formed meta note
populates `platform` and `standard_version`. -/
theorem metaNoteRequirements_witness :
    (∃ e, processNodes
        [("m1", PNodeE.pnote "formal" "CGML_META" "platform/junior\n\nstandardVersion/1.0"),
         ("m2", PNodeE.pnote "formal" "CGML_META" "platform/x\n\nstandardVersion/2")]
        initParseAcc = .error e) ∧
    (∃ e, processNodes
        [("m1", PNodeE.pnote "formal" "CGML_META" "platform/junior")]
        initParseAcc = .error e) ∧
    ((parseMetaText "platform/junior-reader\n\nstandardVersion/1.0").lookup "platform"
        = some (⟨⟨"m1", [("platform", "junior-reader"), ("standardVersion", "1.0")]⟩,
            "junior-reader", "1.0"⟩ : ParseAccE).platform ∧
      (parseMetaText "platform/junior-reader\n\nstandardVersion/1.0").lookup "standardVersion"
        = some (⟨⟨"m1", [("platform", "junior-reader"), ("standardVersion", "1.0")]⟩,
            "junior-reader", "1.0"⟩ : ParseAccE).standardVersion ∧
      (⟨⟨"m1", [("platform", "junior-reader"), ("standardVersion", "1.0")]⟩,
            "junior-reader", "1.0"⟩ : ParseAccE).meta.values
        = parseMetaText "platform/junior-reader\n\nstandardVersion/1.0" ∧
      (⟨⟨"m1", [("platform", "junior-reader"), ("standardVersion", "1.0")]⟩,
            "junior-reader", "1.0"⟩ : ParseAccE).meta.id = "m1") := by
  refine ⟨?_, ?_, ?_⟩
  · exact (metaNoteRequirements
      [("m1", PNodeE.pnote "formal" "CGML_META" "platform/junior\n\nstandardVersion/1.0"),
       ("m2", PNodeE.pnote "formal" "CGML_META" "platform/x\n\nstandardVersion/2")]).1
      (by decide)
  · exact (metaNoteRequirements
      [("m1", PNodeE.pnote "formal" "CGML_META" "platform/junior")]).2.1
      "m1" "formal" "platform/junior" (by decide) (by decide) (by decide)
  · exact (metaNoteRequirements
      [("m1", PNodeE.pnote "formal" "CGML_META"
          "platform/junior-reader\n\nstandardVersion/1.0")]).2.2
      "m1" "formal" "platform/junior-reader\n\nstandardVersion/1.0"
      ⟨⟨"m1", [("platform", "junior-reader"), ("standardVersion", "1.0")]⟩,
          "junior-reader", "1.0"⟩
      (by decide) (by decide) (by decide) rfl

/-! ### Gardener device (`Gardener`, simulator.py 1738-1764; `Mover`,
simulator.py 2007-2085) -/

structure Gardener where
  n : Nat
  m : Nat
  field : List (List Int)
  orientation : Int
  x : Int
  y : Int
  deriving Repr, DecidableEq

/-- Orientation constants set in `Gardener.__init__` (simulator.py
1746-1749). -/
def SOUTH : Int := 0
def NORTH : Int := 1
def WEST : Int := 2
def EAST : Int := 3

/-- Model of `Gardener(N, M)` (simulator.py 1740-1758): an `M × N` field of zeros,
facing `SOUTH` at `(0, 0)`. -/
def gardenerInit (N M : Nat) : Gardener :=
  ⟨N, M, List.replicate M (List.replicate N 0), SOUTH, 0, 0⟩

inductive FaultE where
  | gardenerCrash (msg : String)
  | valueError (msg : String)
  deriving Repr, DecidableEq

/-- Model of `Mover.turn_left` (simulator.py 2065-2074): counter-clockwise turn via
a dict lookup on the current orientation; an orientation outside the four
constants would raise `KeyError` (modelled `none`). Only the orientation
attribute is assigned. -/
def turnLeft (g : Gardener) : Option Gardener :=
  if g.orientation = NORTH then some { g with orientation := WEST }
  else if g.orientation = WEST then some { g with orientation := SOUTH }
  else if g.orientation = SOUTH then some { g with orientation := EAST }
  else if g.orientation = EAST then some { g with orientation := NORTH }
  else none

/-- Model of `Mover.turn_right` (simulator.py 2076-2085): clockwise turn. -/
def turnRight (g : Gardener) : Option Gardener :=
  if g.orientation = NORTH then some { g with orientation := EAST }
  else if g.orientation = EAST then some { g with orientation := SOUTH }
  else if g.orientation = SOUTH then some { g with orientation := WEST }
  else if g.orientation = WEST then some { g with orientation := NORTH }
  else none

/-- Model of `field[ny][nx]` for in-bounds non-negative indices (the only way
`move_forward` reads it). -/
def fieldAt (g : Gardener) (ny nx : Int) : Int :=
  (g.field.getD ny.toNat []).getD nx.toNat 0

/-- Model of `Mover.move_forward` (simulator.py 2020-2041): step one cell in the
facing direction; out of the `N × M` bounds raises
`GardenerCrashException('Crash: out of bounds!')`, a `-1` cell raises
`GardenerCrashException('Crash: hit a wall!')`. -/
def moveForward (g : Gardener) : Except FaultE Gardener :=
  let d : Int × Int :=
    if g.orientation = NORTH then (0, -1)
    else if g.orientation = SOUTH then (0, 1)
    else if g.orientation = WEST then (-1, 0)
    else if g.orientation = EAST then (1, 0)
    else (0, 0)
  let nx := g.x + d.1
  let ny := g.y + d.2
  if 0 ≤ nx ∧ nx < (g.n : Int) ∧ 0 ≤ ny ∧ ny < (g.m : Int) then
    if fieldAt g ny nx ≠ -1 then .ok { g with x := nx, y := ny }
    else .error (.gardenerCrash "Crash: hit a wall!")
  else .error (.gardenerCrash "Crash: out of bounds!")

/-! ### Claim C10 — the turns are mutually inverse -/

/-- C10: on the four orientations, `turn_right` after `turn_left` (and
vice versa) restores the orientation, four `turn_right`s are the
identity, and both turns leave the position and the field untouched. -/
theorem gardenerTurnInverse (g : Gardener)
    (h : g.orientation = SOUTH ∨ g.orientation = NORTH ∨
      g.orientation = WEST ∨ g.orientation = EAST) :
    (turnLeft g).bind turnRight = some g ∧
    (turnRight g).bind turnLeft = some g ∧
    ((((turnRight g).bind turnRight).bind turnRight).bind turnRight) = some g ∧
    (∀ g', turnLeft g = some g' → g'.x = g.x ∧ g'.y = g.y ∧ g'.field = g.field) ∧
    (∀ g', turnRight g = some g' → g'.x = g.x ∧ g'.y = g.y ∧ g'.field = g.field) := by
  obtain ⟨n, m, fld, o, x, y⟩ := g
  simp only [SOUTH, NORTH, WEST, EAST] at h
  rcases h with h | h | h | h <;> subst h <;>
    simp [turnLeft, turnRight, SOUTH, NORTH, WEST, EAST, Option.bind]

/-- Witness for `gardenerTurnInverse` on a 3×3 field facing `NORTH`. -/
theorem gardenerTurnInverse_witness :
    (turnLeft ⟨3, 3, [[0, 0, 0], [0, 0, 0], [0, 0, 0]], 1, 0, 0⟩).bind turnRight
      = some ⟨3, 3, [[0, 0, 0], [0, 0, 0], [0, 0, 0]], 1, 0, 0⟩ :=
  (gardenerTurnInverse ⟨3, 3, [[0, 0, 0], [0, 0, 0], [0, 0, 0]], 1, 0, 0⟩
    (by right; left; decide)).1

/-! ### Driver (`run_state_machine`, simulator.py 3321-3367)

The machine's behaviour behind `SIMPLE_DISPATCH` / `qhsm.current_` /
`component.loop_actions` is carried as the three callables of `MachineM`
(they close over the `StateMachine` the way the Python handlers do); a
raised exception is an `error` carrying the fault together with the
device state and the global `EventLoop` state at the raise. -/

structure StateMachineResultE (σ : Type) where
  timeout : Bool
  signals : List String
  called_signals : List String
  componentsState : σ
  deriving Repr, DecidableEq

structure MachineM (σ : Type) where
  initialEntry : σ → ELState → Except (FaultE × σ × ELState) (σ × ELState)
  dispatch : σ → ELState → String → Except (FaultE × σ × ELState) (σ × ELState)
  loopActions : σ → ELState → Except (FaultE × σ × ELState) (σ × ELState)

inductive RunOutcomeE (σ : Type) where
  | finished (r : StateMachineResultE σ)
  | fault (f : FaultE) (s : σ) (el : ELState)
  | fuelOut
  deriving DecidableEq

inductive StepRes (σ : Type) where
  | cont (s : σ) (el : ELState) (ev : Option String)
  | fault (f : FaultE) (s : σ) (el : ELState)
  | out

/-- Model of `default_signals` local to `run_state_machine` (simulator.py 3331). -/
def defaultSignalsRun : List String := ["noconditionTransition", "entry", "exit"]

/-- The inner system-event drain (simulator.py 3345-3348): while the
fetched event is a system signal, dispatch it and fetch the next. -/
def drainLoop (m : MachineM σ) : Nat → Option String → σ → ELState → StepRes σ
  | 0, _, _, _ => .out
  | fuel + 1, ev, s, el =>
    match ev with
    | some e =>
      if e ∈ defaultSignalsRun then
        match m.dispatch s el e with
        | .error (f, s', el') => .fault f s' el'
        | .ok (s', el') =>
          let next := getEvent el'
          drainLoop m fuel next.1 s' next.2
      else .cont s el (some e)
    | none => .cont s el none

/-- The outer `while True` loop (simulator.py 3342-3360). Note the source
fetches an event at the top of the iteration (3344), drains system
signals, runs `loop_actions`, then fetches *again* (3352) — the event
left in hand after the drain is discarded. `timeout` is initialised to
`False` (3339) and never reassigned; `start_time` and `timeout_sec` are
never consulted. -/
def runLoop (m : MachineM σ) (isInfinite : Bool) : Nat → σ → ELState → RunOutcomeE σ
  | 0, _, _ => .fuelOut
  | fuel + 1, s, el =>
    let g1 := getEvent el
    match drainLoop m (fuel + 1) g1.1 s g1.2 with
    | .out => .fuelOut
    | .fault f s' el' => .fault f s' el'
    | .cont s1 el1 _ =>
      match m.loopActions s1 el1 with
      | .error (f, s', el') => .fault f s' el'
      | .ok (s2, el2) =>
        let g2 := getEvent el2
        match g2.1 with
        | none =>
          if isInfinite then runLoop m isInfinite fuel s2 g2.2
          else .finished ⟨false, g2.2.events, g2.2.called_events, s2⟩
        | some e =>
          if e = "break" then .finished ⟨false, g2.2.events, g2.2.called_events, s2⟩
          else
            match m.dispatch s2 g2.2 e with
            | .error (f, s', el') => .fault f s' el'
            | .ok (s3, el3) => runLoop m isInfinite fuel s3 el3

/-- Model of `run_state_machine` (simulator.py 3321-3367): clear the event loop,
fire `entry` on the current (initial) handler, post the caller's
signals, run the loop, and assemble `StateMachineResult(timeout, ...)`
with the never-reassigned `timeout = False`. `timeout_sec` is accepted
and ignored, as in the source. -/
def runStateMachine (m : MachineM σ) (s0 : σ) (elPrev : ELState)
    (signals : List String) (timeout_sec : ℚ) (isInfinite : Bool)
    (fuel : Nat) : RunOutcomeE σ :=
  let el0 := clearEL elPrev
  match m.initialEntry s0 el0 with
  | .error (f, s', el') => .fault f s' el'
  | .ok (s1, el1) => runLoop m isInfinite fuel s1 (postAll signals el1)

/-! ### Claim C2 — the timeout flag -/

theorem runLoop_timeout_false (m : MachineM σ) (inf : Bool) :
    ∀ (fuel : Nat) (s : σ) (el : ELState) (r : StateMachineResultE σ),
      runLoop m inf fuel s el = .finished r → r.timeout = false := by
  intro fuel
  induction fuel with
  | zero =>
    intro s el r h
    exact RunOutcomeE.noConfusion h
  | succ fuel ih =>
    intro s el r h
    simp only [runLoop] at h
    repeat' split at h
    all_goals first
      | exact RunOutcomeE.noConfusion h
      | (injection h with h2; rw [← h2])
      | exact ih _ _ r h

/-- C2 (code behaviour): every `StateMachineResult` the driver returns
has `timeout = false` — the run loop never consults the wall clock
(`start_time` and `timeout_sec` are unused) and never sets the flag. -/
theorem timeoutFlagNeverSet (m : MachineM σ) (s0 : σ) (elPrev : ELState)
    (signals : List String) (tsec : ℚ) (inf : Bool) (fuel : Nat)
    (r : StateMachineResultE σ)
    (h : runStateMachine m s0 elPrev signals tsec inf fuel = .finished r) :
    r.timeout = false := by
  simp only [runStateMachine] at h
  split at h
  · exact RunOutcomeE.noConfusion h
  · exact runLoop_timeout_false m inf fuel _ _ r h

/-- A machine whose three callables do nothing (no components, an initial
handler that posts nothing). -/
def idleMachine : MachineM Unit :=
  { initialEntry := fun s el => .ok (s, el)
    dispatch := fun s el _ => .ok (s, el)
    loopActions := fun s el => .ok (s, el) }

/-- Witness for `timeoutFlagNeverSet` on an idle run. -/
theorem timeoutFlagNeverSet_witness :
    (⟨false, [], [], ()⟩ : StateMachineResultE Unit).timeout = false :=
  timeoutFlagNeverSet idleMachine () ⟨[], [], 0, 0⟩ [] 0 false 3
    ⟨false, [], [], ()⟩ rfl

/-! ### Claim C5 — device faults and the driver -/

/-- A machine whose `move` event runs `Mover.move_forward` on the
gardener (as action dispatch does through `intepreter_action`). -/
def gardenerCrashMachine : MachineM Gardener :=
  { initialEntry := fun s el => .ok (s, el)
    dispatch := fun s el e =>
      if e = "move" then
        match moveForward s with
        | .ok g' => .ok (g', el)
        | .error f => .error (f, s, el)
      else .ok (s, el)
    loopActions := fun s el => .ok (s, el) }

/-- A gardener on a 1×1 field facing `NORTH`: `move_forward` raises
`Crash: out of bounds!`. -/
def gardenerAtNorthEdge : Gardener := ⟨1, 1, [[0]], 1, 0, 0⟩

/-- C5, counterexample: when a device action raises a
`GardenerCrashException` during dispatch, `run_state_machine` does *not*
return a `StateMachineResult` — it has no `try`/`except`, so the
exception propagates to the caller (outcome `.fault`, not
`.finished`). -/
theorem deviceFaultResult_cex :
    runStateMachine gardenerCrashMachine gardenerAtNorthEdge ⟨[], [], 0, 0⟩
        ["noop", "move"] 1000 false 5
      = .fault (.gardenerCrash "Crash: out of bounds!") gardenerAtNorthEdge
          { events := ["noop", "move"], called_events := [],
            current_event_idx := 2, insert_event_idx := 2 } := by
  rfl

/-- The `JuniorGardener` visualizer's wrapper
(`visualizers/JuniorGardener.py` 309-360): it calls the driver inside
`try`; on `GardenerCrashException` it assembles
`StateMachineResult(True, EventLoop.events, EventLoop.called_events,
sm.components)` itself; any other exception yields `None`. -/
def juniorGardenerRunStateMachine (m : MachineM σ) (s0 : σ) (elPrev : ELState)
    (signals : List String) (tsec : ℚ) (inf : Bool) (fuel : Nat) :
    Option (StateMachineResultE σ) :=
  match runStateMachine m s0 elPrev signals tsec inf fuel with
  | .finished r => some r
  | .fault (.gardenerCrash _) s el => some ⟨true, el.events, el.called_events, s⟩
  | .fault (.valueError _) _ _ => none
  | .fuelOut => none

/-- C5, amended: the driver itself propagates the device fault; it is the
`JuniorGardener` visualizer that catches `GardenerCrashException` and
returns a `StateMachineResult` with `timeout = true`, the trace emitted
up to the crash, and the device state. -/
theorem deviceFaultResult_amended (m : MachineM σ) (s0 : σ) (elPrev : ELState)
    (signals : List String) (tsec : ℚ) (inf : Bool) (fuel : Nat)
    (msg : String) (s : σ) (el : ELState)
    (h : runStateMachine m s0 elPrev signals tsec inf fuel
      = .fault (.gardenerCrash msg) s el) :
    juniorGardenerRunStateMachine m s0 elPrev signals tsec inf fuel
      = some ⟨true, el.events, el.called_events, s⟩ := by
  simp only [juniorGardenerRunStateMachine, h]

/-- Witness for `deviceFaultResult_amended` on the crashing run of
`deviceFaultResult_cex`'s machine. -/
theorem deviceFaultResult_amended_witness :
    juniorGardenerRunStateMachine gardenerCrashMachine gardenerAtNorthEdge ⟨[], [], 0, 0⟩
        ["noop", "move"] 1000 false 5
      = some ⟨true, ["noop", "move"], [], gardenerAtNorthEdge⟩ :=
  deviceFaultResult_amended gardenerCrashMachine gardenerAtNorthEdge ⟨[], [], 0, 0⟩
    ["noop", "move"] 1000 false 5 "Crash: out of bounds!" gardenerAtNorthEdge
    ⟨["noop", "move"], [], 2, 2⟩ rfl
